import Mathlib

/-!
Verification development for the video_downloader repository (src/main.py).
The Python code is shallowly embedded: strings are modelled as `List Char`
(or Lean `String` for record fields), the regular-expression operations of
the source are implemented as recursive character-list functions with the
exact matching semantics of the patterns used, and the side-effecting
collaborators (the wrapped yt-dlp library, the filesystem, the clock) are
modelled as explicit oracle parameters.  Character classes (`\w`, `\s`,
`\d`, `.lower()`) are modelled with their ASCII meaning; every concrete
string appearing in the checked properties is ASCII.
-/

/-- Python `\s` (ASCII part): the whitespace characters recognised by
`re.sub(r'\s+', ...)` and `str.strip()` in src/main.py. -/
def isSpaceChar (c : Char) : Bool :=
  c == ' ' || c == '\t' || c == '\n' || c == '\r' || c == '\x0b' || c == '\x0c'

/-- Python `\w` (ASCII part): letters, digits and underscore. -/
def isWordChar (c : Char) : Bool :=
  c.isAlphanum || c == '_'

/-- The characters removed by `re.sub(r'[<>:"/\\|?*]', '', filename)`
(src/main.py line 320). -/
def isForbiddenChar (c : Char) : Bool :=
  c == '<' || c == '>' || c == ':' || c == '"' || c == '/' || c == '\\' ||
  c == '|' || c == '?' || c == '*'

/-- The characters kept by `re.sub(r'[^\w\s\-_.()\[\]{}]', '', filename)`
(src/main.py line 323). -/
def isAllowedCls (c : Char) : Bool :=
  isWordChar c || isSpaceChar c || c == '-' || c == '_' || c == '.' ||
  c == '(' || c == ')' || c == '[' || c == ']' || c == '\x7b' || c == '\x7d'

/-- State machine for `re.sub(r'<[^>]+>', '', filename)` (src/main.py line
317).  The state `some pend` means we are after a `<` that may open a match,
with `pend` the reversed characters (all distinct from `>`) read since.  A
`>` with a nonempty `pend` closes the match and everything from the `<` is
dropped; a `>` right after the `<` means no match started there (the
quantifier `+` needs at least one character), so both characters are kept,
exactly as `re.sub` resumes scanning after a failed position. -/
def stripTagsGo : Option (List Char) → List Char → List Char
  | none, [] => []
  | some pend, [] => '<' :: pend.reverse
  | none, c :: rest =>
      if c == '<' then stripTagsGo (some []) rest
      else c :: stripTagsGo none rest
  | some pend, c :: rest =>
      if c == '>' then
        if pend.isEmpty then '<' :: '>' :: stripTagsGo none rest
        else stripTagsGo none rest
      else stripTagsGo (some (c :: pend)) rest

/-- `re.sub(r'<[^>]+>', '', filename)`: drop HTML-tag shaped substrings. -/
def stripTags (s : List Char) : List Char :=
  stripTagsGo none s

/-- State machine for `re.sub(r'\s+', ' ', filename)` (src/main.py line
326): each maximal run of whitespace is replaced by a single space. -/
def collapseWsGo : Bool → List Char → List Char
  | _, [] => []
  | inRun, c :: rest =>
      if isSpaceChar c then
        if inRun then collapseWsGo true rest
        else ' ' :: collapseWsGo true rest
      else c :: collapseWsGo false rest

/-- `re.sub(r'\s+', ' ', filename)`. -/
def collapseWs (s : List Char) : List Char :=
  collapseWsGo false s

/-- Python `str.strip()`: remove leading and trailing whitespace. -/
def pyStrip (s : List Char) : List Char :=
  ((s.dropWhile isSpaceChar).reverse.dropWhile isSpaceChar).reverse

/-- Python `str.rstrip('.')` (src/main.py line 332). -/
def rstripDot (s : List Char) : List Char :=
  (s.reverse.dropWhile (fun c => c == '.')).reverse

/-- Helper for Python `str.split()`: `cur` is the reversed current word. -/
def splitWsGo : List Char → List Char → List (List Char)
  | cur, [] => if cur.isEmpty then [] else [cur.reverse]
  | cur, c :: rest =>
      if isSpaceChar c then
        if cur.isEmpty then splitWsGo [] rest
        else cur.reverse :: splitWsGo [] rest
      else splitWsGo (c :: cur) rest

/-- Python `str.split()`: split on whitespace runs, dropping empty parts. -/
def splitWs (s : List Char) : List (List Char) :=
  splitWsGo [] s

/-- The word-accumulation loop of `sanitize_filename` (src/main.py lines
340-344): extend `acc` with the next word only while the combined length
(separating space included) stays within `maxLength`; stop at the first
word that does not fit (`break`). -/
def truncGo (maxLength : Nat) : List Char → List (List Char) → List Char
  | acc, [] => acc
  | acc, w :: ws =>
      if (acc ++ ' ' :: w).length ≤ maxLength then
        truncGo maxLength (acc ++ ' ' :: w) ws
      else acc

/-- The truncation branch of `sanitize_filename` (src/main.py lines
335-345): `words = filename.split()`, `result = words[0] if words else
"Video"`, then the accumulation loop. -/
def truncateWords (s : List Char) (maxLength : Nat) : List Char :=
  match splitWs s with
  | [] => "Video".toList
  | w :: ws => truncGo maxLength w ws

/-- `VideoDownloader.sanitize_filename` (src/main.py lines 301-347),
embedded stage by stage in the order of the source. -/
def sanitize_filename (s : List Char) (maxLength : Nat := 180) : List Char :=
  if s.isEmpty || (pyStrip s).isEmpty then "Unknown_Video".toList
  else
    let f1 := stripTags s
    let f2 := f1.filter (fun c => !(isForbiddenChar c))
    let f3 := f2.filter isAllowedCls
    let f4 := collapseWs f3
    let f5 := pyStrip f4
    let f6 := rstripDot f5
    let f7 := if maxLength < f6.length then truncateWords f6 maxLength else f6
    if f7.isEmpty then "Unknown_Video".toList else f7

example : sanitize_filename "My <Cool> Video???".toList = "My Video".toList := by decide
example : sanitize_filename "abcdefghijklmnop".toList 10 = "abcdefghijklmnop".toList := by decide
example : sanitize_filename "  a   b  ".toList 3 = "a b".toList := by decide
example : sanitize_filename "...".toList = "Unknown_Video".toList := by decide

/-- Python `str.lower()` (ASCII part). -/
def lowerList (s : List Char) : List Char :=
  s.map Char.toLower

/-- `pat` is a prefix of `s` (character-by-character comparison). -/
def startsWithL : List Char → List Char → Bool
  | [], _ => true
  | _ :: _, [] => false
  | p :: ps, c :: cs => p == c && startsWithL ps cs

/-- Python substring containment `pat in hay`. -/
def containsSub : List Char → List Char → Bool
  | [], pat => pat.isEmpty
  | hay@(_ :: rest), pat => startsWithL pat hay || containsSub rest pat

example : containsSub "https://youtu.be/x".toList "youtu.be".toList = true := by decide
example : containsSub "abc".toList "".toList = true := by decide
example : containsSub "ab".toList "abc".toList = false := by decide

/-- `OutputFormat` (src/main.py lines 30-36). -/
inductive OutputFormat where
  | mp4
  | mp3
  | webm
  | best_video
  | best_audio
deriving DecidableEq

/-- `OutputFormat.value`. -/
def OutputFormat.value : OutputFormat → String
  | .mp4 => "mp4"
  | .mp3 => "mp3"
  | .webm => "webm"
  | .best_video => "best_video"
  | .best_audio => "best_audio"

/-- `VideoSource` (src/main.py lines 39-54). -/
inductive VideoSource where
  | YOUTUBE
  | TIKTOK
  | FACEBOOK
  | INSTAGRAM
  | TWITTER
  | VK
  | TWITCH
  | REDDIT
  | SOUNDCLOUD
  | BANDCAMP
  | VIMEO
  | DAILYMOTION
  | SPOTIFY
  | OTHER
deriving DecidableEq

/-- `VideoSource.value`. -/
def VideoSource.value : VideoSource → String
  | .YOUTUBE => "YouTube"
  | .TIKTOK => "TikTok"
  | .FACEBOOK => "Facebook"
  | .INSTAGRAM => "Instagram"
  | .TWITTER => "Twitter/X"
  | .VK => "VK"
  | .TWITCH => "Twitch"
  | .REDDIT => "Reddit"
  | .SOUNDCLOUD => "SoundCloud"
  | .BANDCAMP => "Bandcamp"
  | .VIMEO => "Vimeo"
  | .DAILYMOTION => "Dailymotion"
  | .SPOTIFY => "Spotify"
  | .OTHER => "Другое"

/-- The `source_mapping` table of `get_video_source` (src/main.py lines
279-293), in the order the Python dict iterates (insertion order). -/
def source_mapping : List (List String × VideoSource) :=
  [(["youtube.com", "youtu.be", "youtube-nocookie.com"], .YOUTUBE),
   (["tiktok.com"], .TIKTOK),
   (["facebook.com", "fb.watch", "fb.com"], .FACEBOOK),
   (["instagram.com", "instagr.am"], .INSTAGRAM),
   (["twitter.com", "x.com", "t.co"], .TWITTER),
   (["vk.com", "vk.ru"], .VK),
   (["twitch.tv"], .TWITCH),
   (["reddit.com", "redd.it"], .REDDIT),
   (["soundcloud.com"], .SOUNDCLOUD),
   (["bandcamp.com"], .BANDCAMP),
   (["vimeo.com"], .VIMEO),
   (["dailymotion.com"], .DAILYMOTION),
   (["spotify.com", "open.spotify.com"], .SPOTIFY)]

/-- `VideoDownloader.get_video_source` (src/main.py lines 266-299): first
table entry one of whose hostname fragments occurs in the lowercased URL;
`OTHER` when none matches. -/
def get_video_source (url : List Char) : VideoSource :=
  match source_mapping.find?
      (fun p => p.1.any (fun d => containsSub (lowerList url) d.toList)) with
  | some p => p.2
  | none => VideoSource.OTHER

example : get_video_source "https://YOUTU.BE/abc".toList = .YOUTUBE := by decide
example : get_video_source "https://fb.watch/xyz".toList = .FACEBOOK := by decide
example : get_video_source "https://example.org/v".toList = .OTHER := by decide

/-- Python `f"{n:02d}"` for a nonnegative integer. -/
def pad2 (n : Nat) : String :=
  if n < 10 then "0" ++ toString n else toString n

/-- `VideoDownloader._format_duration` (src/main.py lines 357-369).  The
Python argument is `Optional[float]`, truncated with `int()`; durations are
nonnegative seconds, modelled as `Option Nat`.  `if not duration` is true
for both `None` and `0`. -/
def format_duration (duration : Option Nat) : String :=
  match duration with
  | none => "Неизвестно"
  | some d =>
      if d = 0 then "Неизвестно"
      else
        let minutes := d / 60
        let seconds := d % 60
        let hours := minutes / 60
        let minutes2 := minutes % 60
        if hours > 0 then pad2 hours ++ ":" ++ pad2 minutes2 ++ ":" ++ pad2 seconds
        else pad2 minutes2 ++ ":" ++ pad2 seconds

example : format_duration (some 0) = "Неизвестно" := by decide
example : format_duration (some 90) = "01:30" := by decide
example : format_duration (some 3661) = "01:01:01" := by decide

/-- Greedy `\d{15,16}` as final group of a pattern: at least 15 digits must
follow; the group is the first 16 digits when available, otherwise the 15. -/
def digitGroup (s : List Char) : Option (List Char) :=
  let ds := s.takeWhile Char.isDigit
  if 15 ≤ ds.length then some (ds.take 16) else none

/-- Leftmost-position regex search: try the position matcher `m` on every
suffix, left to right, as `re.search` does. -/
def findFrom (m : List Char → Option (List Char)) : List Char → Option (List Char)
  | [] => m []
  | c :: rest =>
      match m (c :: rest) with
      | some g => some g
      | none => findFrom m rest

/-- Position matcher for the patterns `/reel/(\d{15,16})`,
`/watch/\?v=(\d{15,16})`, `/videos/(\d{15,16})` of `_fix_facebook_url`
(src/main.py lines 595-597): a literal followed by the digit group. -/
def matchLitDigits (lit : List Char) (s : List Char) : Option (List Char) :=
  if startsWithL lit s then digitGroup (s.drop lit.length) else none

/-- `.*?(\d{15,16})`: lazy `.*?` (any character except newline), expanding
one character at a time, each time trying the greedy digit group first. -/
def dotLazyDigits : List Char → Option (List Char)
  | [] => digitGroup []
  | c :: rest =>
      match digitGroup (c :: rest) with
      | some g => some g
      | none => if c == '\n' then none else dotLazyDigits rest

/-- Backtracking of the greedy `[^/]+` in `fb\.watch/[^/]+.*?(\d{15,16})`
(src/main.py line 598): try consuming `k` non-slash characters, longest
first, and for each continue with the lazy tail. -/
def nonSlashGreedy (rest : List Char) : Nat → Option (List Char)
  | 0 => none
  | k + 1 =>
      match dotLazyDigits (rest.drop (k + 1)) with
      | some g => some g
      | none => nonSlashGreedy rest k

/-- Position matcher for `fb\.watch/[^/]+.*?(\d{15,16})`. -/
def matchFbWatchAt (s : List Char) : Option (List Char) :=
  if startsWithL "fb.watch/".toList s then
    let rest := s.drop 9
    let run := rest.takeWhile (fun c => !(c == '/'))
    if run.isEmpty then none else nonSlashGreedy rest run.length
  else none

/-- Position matcher for `video_id[=:](\d{15,16})` (src/main.py line 599). -/
def matchVideoIdAt (s : List Char) : Option (List Char) :=
  if startsWithL "video_id".toList s then
    match s.drop 8 with
    | [] => none
    | c :: rest => if c == '=' || c == ':' then digitGroup rest else none
  else none

/-- Position matcher for `\b(\d{15,16})\b` (src/main.py line 600), given
the character just before the position (`none` at the start of the string).
The leading `\b` needs a non-word character (or the string edge) before a
digit; the trailing `\b` needs a non-word character (or the edge) after the
greedily matched digits, 16 tried before 15. -/
def matchNumAt (prev : Option Char) (s : List Char) : Option (List Char) :=
  let boundaryBefore := match prev with
    | none => true
    | some p => !(isWordChar p)
  let afterOk := fun (t : List Char) => match t with
    | [] => true
    | c :: _ => !(isWordChar c)
  if boundaryBefore then
    let ds := s.takeWhile Char.isDigit
    if 16 ≤ ds.length && afterOk (s.drop 16) then some (ds.take 16)
    else if ds.length == 15 && afterOk (s.drop 15) then some (ds.take 15)
    else none
  else none

/-- Leftmost search for `\b(\d{15,16})\b`, carrying the previous character. -/
def findNumFrom (prev : Option Char) : List Char → Option (List Char)
  | [] => none
  | c :: rest =>
      match matchNumAt prev (c :: rest) with
      | some g => some g
      | none => findNumFrom (some c) rest

/-- The ordered pattern search of `_fix_facebook_url` (src/main.py lines
594-606): first pattern that matches anywhere in the URL wins, and its
first capture group is the video id. -/
def fbPatternSearch (url : List Char) : Option (List Char) :=
  match findFrom (matchLitDigits "/reel/".toList) url with
  | some g => some g
  | none =>
  match findFrom (matchLitDigits "/watch/?v=".toList) url with
  | some g => some g
  | none =>
  match findFrom (matchLitDigits "/videos/".toList) url with
  | some g => some g
  | none =>
  match findFrom matchFbWatchAt url with
  | some g => some g
  | none =>
  match findFrom matchVideoIdAt url with
  | some g => some g
  | none => findNumFrom none url

/-- The canonical result shape `https://www.facebook.com/watch/?v=` built
by `_fix_facebook_url` (src/main.py line 607). -/
def fbCanon : List Char :=
  ['h', 't', 't', 'p', 's', ':', '/', '/', 'w', 'w', 'w', '.', 'f', 'a',
   'c', 'e', 'b', 'o', 'o', 'k', '.', 'c', 'o', 'm', '/', 'w', 'a', 't',
   'c', 'h', '/', '?', 'v', '=']

example : fbCanon = "https://www.facebook.com/watch/?v=".toList := by decide

/-- `VideoDownloader._fix_facebook_url` (src/main.py lines 580-619): URLs
that are not Facebook/fb.watch URLs are returned unchanged; otherwise the
first matching pattern's id is substituted into the canonical form, and a
URL with no matching pattern is returned unchanged (with a warning). -/
def fix_facebook_url (url : List Char) : List Char :=
  if !(containsSub (lowerList url) "facebook.com".toList) &&
     !(containsSub (lowerList url) "fb.watch".toList) then url
  else
    match fbPatternSearch url with
    | some g => fbCanon ++ g
    | none => url

example : fix_facebook_url "https://fb.watch/AbC123/?x=1234567890123456".toList
    = "https://www.facebook.com/watch/?v=1234567890123456".toList := by decide
example : fix_facebook_url "https://www.facebook.com/reel/123456789012345".toList
    = "https://www.facebook.com/watch/?v=123456789012345".toList := by decide
example : fix_facebook_url "https://www.facebook.com/user/videos".toList
    = "https://www.facebook.com/user/videos".toList := by decide
example : fix_facebook_url "https://youtube.com/watch?v=abc".toList
    = "https://youtube.com/watch?v=abc".toList := by decide
example : fix_facebook_url "https://www.facebook.com/watch/?v=12345678901234567".toList
    = "https://www.facebook.com/watch/?v=1234567890123456".toList := by decide

/-- `DownloadConfig` (src/main.py lines 169-180). -/
structure DConfig where
  url : String
  outputFormat : OutputFormat := .mp4
  downloadedBy : String := "User"
  playlistName : String := ""
  proxyUsed : Bool := false
  notes : String := ""
  quality : String := "best"
  downloadPlaylist : Bool := false
  maxDownloads : Nat := 50
deriving DecidableEq

/-- The yt-dlp metadata dictionary, restricted to the keys src/main.py
reads.  Keys that may be absent are `Option`s (`dict.get` with a default is
`Option.getD`).  `hasPrivateMarker` models `'private' in str(info_dict)`
(lines 789, 796) and `hasAuthIndicator` models the Instagram indicator scan
over `str(info_dict)` (lines 772-775), both oracle bits, since the full
dictionary serialisation is outside the model. -/
structure InfoDict where
  title : Option String := none
  uploader : Option String := none
  channel : Option String := none
  vid : Option String := none
  ext : Option String := none
  duration : Option Nat := none
  tags : List String := []
  formats : List String := []
  playlistTitle : Option String := none
  playlistIndex : Option Nat := none
  webpageUrl : String := ""
  hasPrivateMarker : Bool := false
  hasAuthIndicator : Bool := false
deriving DecidableEq

/-- Values produced outside the pure logic of `log_download`: the generated
record id and timestamp (clock plus `hash`, lines 429-432) and the measured
file size (line 442), passed in as oracles. -/
structure RowMeta where
  recordId : String := ""
  timestamp : String := ""
  fileSizeStr : String := "0.0"
deriving DecidableEq

/-- The 18-column header row written by `_setup_directories` when the
journal file does not exist (src/main.py lines 251-257). -/
def journalHeader : List String :=
  ["ID", "Формат", "Время загрузки", "Источник", "URL",
   "Название", "Теги", "Путь к файлу", "Размер файла (MB)",
   "Длительность", "Плейлист", "Позиция в плейлисте",
   "Загрузил", "Автоудаление", "Прокси", "Качество",
   "Заметки", "Статус"]

/-- The row written by `log_download` (src/main.py lines 446-465), field by
field in source order. -/
def buildRow (meta : RowMeta) (info : InfoDict) (cfg : DConfig)
    (filePath : String) (status : String) : List String :=
  [meta.recordId,
   cfg.outputFormat.value,
   meta.timestamp,
   (get_video_source cfg.url.toList).value,
   cfg.url,
   info.title.getD "Неизвестное название",
   (if info.tags.isEmpty then "Нет тегов"
    else String.intercalate ", " (info.tags.take 10)),
   filePath,
   meta.fileSizeStr,
   format_duration info.duration,
   info.playlistTitle.getD cfg.playlistName,
   (match info.playlistIndex with
    | some n => toString n
    | none => ""),
   cfg.downloadedBy,
   "",
   (if cfg.proxyUsed then "Да" else "Нет"),
   cfg.quality,
   cfg.notes,
   status]

/-- `_setup_directories` on the journal file (src/main.py lines 247-260):
creates the file with the header row only when it does not yet exist. -/
def setupJournal : Option (List (List String)) → List (List String)
  | none => [journalHeader]
  | some rows => rows

/-- One `log_download` call (src/main.py lines 414-472) as a journal state
transition: `writeOk` is whether the underlying file append succeeds (the
body is wrapped in try/except); on failure nothing is written and the
function returns `False` instead of raising. -/
def log_download (j : List (List String)) (meta : RowMeta) (info : InfoDict)
    (cfg : DConfig) (filePath : String) (status : String) (writeOk : Bool) :
    List (List String) × Bool :=
  if writeOk then (j ++ [buildRow meta info cfg filePath status], true)
  else (j, false)

/-- One journal append request, for iterating `log_download`. -/
structure LogOp where
  meta : RowMeta
  info : InfoDict
  cfg : DConfig
  filePath : String
  status : String
  writeOk : Bool

/-- The journal contents after creating the file and running a sequence of
`log_download` calls. -/
def runJournal (ops : List LogOp) : List (List String) :=
  ops.foldl
    (fun j op => (log_download j op.meta op.info op.cfg op.filePath op.status op.writeOk).1)
    (setupJournal none)

/-- The status column of a journal row (column 18, index 17). -/
def rowStatus (row : List String) : String :=
  row.getD 17 ""

/-- The per-platform pre-download checks of `_download_single_video`
(src/main.py lines 767-799): `some status` means the attempt is rejected
and journaled with that status; Facebook only warns and continues. -/
def platformReject (source : VideoSource) (info : InfoDict) : Option String :=
  if source = .INSTAGRAM then
    if info.hasAuthIndicator || info.formats.isEmpty then
      some "Ошибка: требуется авторизация Instagram"
    else none
  else if source = .FACEBOOK then none
  else if source = .TIKTOK then
    if info.hasPrivateMarker || info.formats.isEmpty then
      some "Ошибка: TikTok видео недоступно"
    else none
  else if source = .SOUNDCLOUD then
    if info.hasPrivateMarker && info.formats.isEmpty then
      some "Ошибка: SoundCloud трек приватный"
    else none
  else none

/-- Oracles for one `_download_single_video` run: whether `ydl.download`
raises (and with what message), what `_find_downloaded_file` returns, and
whether the journal file append succeeds. -/
structure SingleEnv where
  downloadRaises : Option String := none
  foundFile : Option String := none
  writeOk : Bool := true
  meta : RowMeta := {}
deriving DecidableEq

/-- `VideoDownloader._download_single_video` (src/main.py lines 743-822):
returns the success flag and the journal rows appended during the run.
A located file yields `True` after a success row; the result of the
`log_download` call on line 812 is discarded.  A missing file or an
exception yields `False` after a failure row. -/
def download_single_video (info : InfoDict) (cfg : DConfig) (env : SingleEnv) :
    Bool × List (List String) :=
  let source := get_video_source cfg.url.toList
  match platformReject source info with
  | some st => (false, if env.writeOk then [buildRow env.meta info cfg "" st] else [])
  | none =>
    match env.downloadRaises with
    | some msg =>
        (false, if env.writeOk then [buildRow env.meta info cfg "" ("Ошибка: " ++ msg)] else [])
    | none =>
      match env.foundFile with
      | some p => (true, if env.writeOk then [buildRow env.meta info cfg p "Успешно"] else [])
      | none =>
          (false,
           if env.writeOk then [buildRow env.meta info cfg "" "Ошибка: файл не найден"] else [])

/-- Outcome oracle for one playlist entry: the downloaded file was located,
or it was not located after the download call, or some step raised. -/
inductive EntryOutcome where
  | found (path : String)
  | notFound
  | raised (msg : String)
deriving DecidableEq

/-- `EntryOutcome.found`? -/
def isFound : EntryOutcome → Bool
  | .found _ => true
  | _ => false

/-- Oracles for one playlist entry of `_download_playlist`. -/
structure EntryEnv where
  outcome : EntryOutcome
  writeOk : Bool := true
  meta : RowMeta := {}
deriving DecidableEq

/-- The entry loop of `_download_playlist` (src/main.py lines 844-874),
over `enumerate(entries[:max_downloads], 1)`: `None` entries are skipped
(the position counter still advances); an entry whose file is located is
journaled with the default success status and counted; an entry whose file
is not located, or that raises, is only reported to the diagnostic logger —
no journal row is written for it.  Returns the success count and the rows
appended to the journal. -/
def playlistGo (cfg : DConfig) (plTitle : String) :
    List (Option InfoDict × EntryEnv) → Nat → Nat × List (List String)
  | [], _ => (0, [])
  | (none, _) :: rest, i => playlistGo cfg plTitle rest (i + 1)
  | (some e, env) :: rest, i =>
    match env.outcome with
    | .found path =>
        let row := buildRow env.meta
          { e with playlistIndex := some i, playlistTitle := some plTitle }
          cfg path "Успешно"
        let r := playlistGo cfg plTitle rest (i + 1)
        (r.1 + 1, (if env.writeOk then [row] else []) ++ r.2)
    | _ => playlistGo cfg plTitle rest (i + 1)

/-- `VideoDownloader._download_playlist` (src/main.py lines 824-877): empty
playlists fail immediately; otherwise the entries (bounded by
`max_downloads`, paired with their oracles) are processed sequentially and
the call succeeds iff at least one entry succeeded (`success_count > 0`).
Returns the success flag and the journal contents after the run. -/
def download_playlist (infoTitle : Option String) (entries : List (Option InfoDict))
    (envs : List EntryEnv) (cfg : DConfig) (journal : List (List String)) :
    Bool × List (List String) :=
  if entries.isEmpty then (false, journal)
  else
    let plTitle := infoTitle.getD "Unknown_Playlist"
    let r := playlistGo cfg plTitle ((entries.zip envs).take cfg.maxDownloads) 1
    (decide (0 < r.1), journal ++ r.2)

/-- The exception classes caught around the metadata probe (src/main.py
line 656): `DownloadError, ExtractorError, ImportError, ValueError`; any
other exception type propagates past this handler. -/
inductive ExcType where
  | downloadError
  | extractorError
  | importError
  | valueError
  | otherError
deriving DecidableEq

/-- Membership in the caught exception tuple of line 656. -/
def caughtType : ExcType → Bool
  | .otherError => false
  | _ => true

/-- An exception raised by `extract_info`. -/
structure ProbeExc where
  etype : ExcType
  msg : String
deriving DecidableEq

/-- The breakage test on `error_msg = str(e).lower()` (src/main.py lines
657-661). -/
def breakageMsg (msg : String) : Bool :=
  containsSub (lowerList msg.toList) "cannot parse data".toList ||
  containsSub (lowerList msg.toList) "sabr streaming".toList ||
  containsSub (lowerList msg.toList) "formats have been skipped".toList

/-- Which fallback option set `download_video` builds (src/main.py lines
669-718), keyed by the URL substring branch that selects it. -/
inductive FallbackBranch where
  | facebook
  | soundcloud
  | youtube
  | generic
deriving DecidableEq

/-- The branch selection over `config.url.lower()` (lines 669, 689, 701):
Facebook, then SoundCloud, then YouTube, otherwise the generic fallback. -/
def fallbackBranch (url : List Char) : FallbackBranch :=
  if containsSub (lowerList url) "facebook".toList then .facebook
  else if containsSub (lowerList url) "soundcloud".toList then .soundcloud
  else if containsSub (lowerList url) "youtube".toList ||
          containsSub (lowerList url) "youtu.be".toList then .youtube
  else .generic

/-- The `format` selector each fallback option set installs (lines 671,
691, 703, 716). -/
def fallbackFormat : FallbackBranch → String
  | .facebook => "best[height<=720]/worst"
  | .soundcloud => "best"
  | .youtube => "best[height<=720]/best[height<=480]/worst"
  | .generic => "best[height<=720]/worst"

/-- Oracles for the two possible `extract_info` probe calls of
`download_video`. -/
structure ProbeEnv where
  firstProbe : Except ProbeExc InfoDict
  secondProbe : Except ProbeExc InfoDict

/-- What the probe phase did: its final result, how many `extract_info`
calls ran, and which fallback option set (if any) was installed. -/
structure ProbeOutcome where
  result : Except ProbeExc InfoDict
  probeCalls : Nat
  fallbackUsed : Option FallbackBranch

/-- The metadata-probe phase of `download_video` (src/main.py lines
653-724): a first `extract_info`; on an exception of a caught class whose
lowercased message contains a breakage substring, one retry with the
URL-selected fallback options (whose result, success or failure, is
final); any other exception is re-raised. -/
def download_video_probe (url : List Char) (env : ProbeEnv) : ProbeOutcome :=
  match env.firstProbe with
  | .ok info => ⟨.ok info, 1, none⟩
  | .error e =>
      if caughtType e.etype && breakageMsg e.msg then
        ⟨env.secondProbe, 2, some (fallbackBranch url)⟩
      else ⟨.error e, 1, none⟩

/-- C8: applying the Facebook URL fixup to
`https://fb.watch/AbC123/?x=1234567890123456` yields exactly
`https://www.facebook.com/watch/?v=1234567890123456`. -/
theorem fix_facebook_url_example :
    fix_facebook_url "https://fb.watch/AbC123/?x=1234567890123456".toList
      = "https://www.facebook.com/watch/?v=1234567890123456".toList := by
  decide

/-- C9 counterexample: the sanitizer does not map `My <Cool> Video???` to
`My Cool Video`: the first substitution `re.sub(r'<[^>]+>', '', ...)`
deletes the whole `<Cool>` including the word inside the brackets. -/
theorem sanitize_example_counterexample :
    ¬ (sanitize_filename "My <Cool> Video???".toList = "My Cool Video".toList) := by
  decide

/-- C9 amended: the sanitizer maps `My <Cool> Video???` (default maximum
length) to `My Video`. -/
theorem sanitize_example_amended :
    sanitize_filename "My <Cool> Video???".toList = "My Video".toList := by
  decide

/-- C10: `_format_duration` maps both `None` and a duration of exactly 0
seconds to the unknown placeholder; a positive duration below one hour is
rendered `MM:SS`, and `HH:MM:SS` appears exactly from one hour on; in a
journal row a zero duration therefore appears as the placeholder (column
10, index 9). -/
theorem format_duration_spec :
    format_duration none = "Неизвестно" ∧
    format_duration (some 0) = "Неизвестно" ∧
    (∀ d : Nat, 0 < d → d < 3600 →
       format_duration (some d) = pad2 (d / 60) ++ ":" ++ pad2 (d % 60)) ∧
    (∀ d : Nat, 3600 ≤ d →
       format_duration (some d)
         = pad2 (d / 3600) ++ ":" ++ pad2 (d / 60 % 60) ++ ":" ++ pad2 (d % 60)) ∧
    (∀ (meta : RowMeta) (info : InfoDict) (cfg : DConfig) (fp st : String),
       info.duration = some 0 →
       (buildRow meta info cfg fp st).getD 9 "" = "Неизвестно") := by
  refine ⟨rfl, rfl, ?_, ?_, ?_⟩
  · intro d hd hlt
    have h0 : ¬ d = 0 := by omega
    have hh : d / 60 / 60 = 0 := by omega
    have hm : d / 60 % 60 = d / 60 := by omega
    simp only [format_duration, if_neg h0, hh, hm]
    rfl
  · intro d hge
    have h0 : ¬ d = 0 := by omega
    have hh : d / 60 / 60 = d / 3600 := by omega
    have hpos : 0 < d / 3600 := by omega
    simp only [format_duration, if_neg h0, hh]
    rw [if_pos hpos]
  · intro meta info cfg fp st hdur
    simp [buildRow, hdur, format_duration]

/-- C10 witness: the theorem instantiated at durations 59 and 3600 and at a
concrete journal row. -/
theorem format_duration_spec_witness :
    format_duration (some 59) = pad2 (59 / 60) ++ ":" ++ pad2 (59 % 60) ∧
    format_duration (some 3600)
      = pad2 (3600 / 3600) ++ ":" ++ pad2 (3600 / 60 % 60) ++ ":" ++ pad2 (3600 % 60) ∧
    (buildRow {} { duration := some 0 } { url := "u" } "p" "s").getD 9 "" = "Неизвестно" := by
  refine ⟨?_, ?_, ?_⟩
  · exact format_duration_spec.2.2.1 59 (by decide) (by decide)
  · exact format_duration_spec.2.2.2.1 3600 (by decide)
  · exact format_duration_spec.2.2.2.2 {} { duration := some 0 } { url := "u" } "p" "s" rfl

/-- C4: when the metadata probe fails, the fallback reconfiguration and
second probe happen at most once; they happen only when the lowercased
error message contains one of the breakage substrings, and then the
installed option set is the one selected from the URL's substrings; a probe
error whose message contains none of the substrings is re-raised unchanged
with no retry. -/
theorem download_video_probe_spec (url : List Char) (env : ProbeEnv) (e : ProbeExc)
    (h : env.firstProbe = .error e) :
    (download_video_probe url env).probeCalls ≤ 2 ∧
    ((download_video_probe url env).fallbackUsed.isSome = true → breakageMsg e.msg = true) ∧
    ((caughtType e.etype && breakageMsg e.msg) = true →
       download_video_probe url env
         = ⟨env.secondProbe, 2, some (fallbackBranch url)⟩) ∧
    (breakageMsg e.msg = false →
       download_video_probe url env = ⟨Except.error e, 1, none⟩) := by
  simp only [download_video_probe, h]
  by_cases hc : (caughtType e.etype && breakageMsg e.msg) = true
  · rw [if_pos hc]
    refine ⟨by simp, fun _ => (Bool.and_eq_true _ _ |>.mp hc).2, fun _ => rfl, fun hb => ?_⟩
    rw [hb, Bool.and_false] at hc
    exact absurd hc (by simp)
  · rw [if_neg hc]
    exact ⟨by simp, by simp, fun h2 => absurd h2 hc, fun _ => rfl⟩

/-- C4 witness: a DownloadError whose message contains `cannot parse data`
on a YouTube URL triggers exactly one fallback probe with the
YouTube-selected option set. -/
theorem download_video_probe_spec_witness :
    (caughtType ExcType.downloadError && breakageMsg "ERROR: Cannot parse data") = true ∧
    download_video_probe "https://www.youtube.com/watch?v=dQ".toList
        ⟨Except.error ⟨ExcType.downloadError, "ERROR: Cannot parse data"⟩, Except.ok {}⟩
      = ⟨Except.ok {}, 2, some FallbackBranch.youtube⟩ := by
  refine ⟨by decide, ?_⟩
  have h := download_video_probe_spec "https://www.youtube.com/watch?v=dQ".toList
    ⟨Except.error ⟨ExcType.downloadError, "ERROR: Cannot parse data"⟩, Except.ok {}⟩
    ⟨ExcType.downloadError, "ERROR: Cannot parse data"⟩ rfl
  rw [h.2.2.1 (by decide)]
  rw [show fallbackBranch "https://www.youtube.com/watch?v=dQ".toList = FallbackBranch.youtube from by decide]

/-- C7: once the downloaded file has been located,
`_download_single_video` returns `True` for every journal-write outcome:
`log_download` catches its own write error, returns `False` and appends
nothing, and `_download_single_video` discards that result. -/
theorem download_single_video_write_failure (info : InfoDict) (cfg : DConfig)
    (env : SingleEnv) (p : String)
    (hrej : platformReject (get_video_source cfg.url.toList) info = none)
    (hdl : env.downloadRaises = none)
    (hf : env.foundFile = some p) :
    (∀ b : Bool, (download_single_video info cfg { env with writeOk := b }).1 = true) ∧
    (∀ (j : List (List String)) (meta : RowMeta) (i : InfoDict) (c : DConfig) (fp st : String),
       (log_download j meta i c fp st false).2 = false ∧
       (log_download j meta i c fp st false).1 = j) := by
  constructor
  · intro b
    simp only [download_single_video, hrej, hdl, hf]
  · intro j meta i c fp st
    exact ⟨rfl, rfl⟩

/-- C7 witness: a concrete located download on a Vimeo URL returns `True`
when the journal write fails. -/
theorem download_single_video_write_failure_witness :
    (download_single_video { formats := ["http-720p"] } { url := "https://vimeo.com/123" }
        { foundFile := some "clip.mp4", writeOk := false }).1 = true := by
  exact (download_single_video_write_failure { formats := ["http-720p"] }
    { url := "https://vimeo.com/123" }
    { foundFile := some "clip.mp4", writeOk := false } "clip.mp4"
    (by decide) rfl rfl).1 false

/-- Every row `log_download` builds has exactly 18 fields. -/
theorem buildRow_length (meta : RowMeta) (info : InfoDict) (cfg : DConfig)
    (fp st : String) : (buildRow meta info cfg fp st).length = 18 :=
  rfl

/-- Iterating `log_download` from any journal contents only appends, and
appends only 18-field rows. -/
theorem runJournal_aux (ops : List LogOp) : ∀ j : List (List String),
    ∃ t, ops.foldl
        (fun j op => (log_download j op.meta op.info op.cfg op.filePath op.status op.writeOk).1) j
      = j ++ t ∧ (t.all fun row => row.length == 18) = true := by
  induction ops with
  | nil => exact fun j => ⟨[], by simp⟩
  | cons op ops ih =>
    intro j
    obtain ⟨t, ht, hall⟩ :=
      ih ((log_download j op.meta op.info op.cfg op.filePath op.status op.writeOk).1)
    by_cases hw : op.writeOk
    · refine ⟨[buildRow op.meta op.info op.cfg op.filePath op.status] ++ t, ?_, ?_⟩
      · rw [List.foldl_cons, ht]
        simp [log_download, hw]
      · simp only [List.cons_append, List.nil_append, List.all_cons, Bool.and_eq_true]
        exact ⟨by simp [buildRow_length], hall⟩
    · refine ⟨t, ?_, hall⟩
      rw [List.foldl_cons, ht]
      simp [log_download, hw]

/-- C5: the journal file is created with the fixed 18-column header as its
first line; after any sequence of `log_download` calls the header is still
the first line, every row has exactly the header's column count, and a
further call only extends the journal (rows are never updated or
deleted). -/
theorem journal_schema_invariant (ops : List LogOp) (op : LogOp) :
    journalHeader.length = 18 ∧
    (runJournal ops).head? = some journalHeader ∧
    ((runJournal ops).all fun row => row.length == 18) = true ∧
    runJournal ops <+: runJournal (ops ++ [op]) := by
  obtain ⟨t, ht, hall⟩ := runJournal_aux ops (setupJournal none)
  have hrun : runJournal ops = journalHeader :: t := by
    rw [runJournal, ht]; rfl
  refine ⟨rfl, ?_, ?_, ?_⟩
  · rw [hrun]; rfl
  · rw [hrun]
    simp only [List.all_cons, Bool.and_eq_true]
    exact ⟨by decide, hall⟩
  · have hsplit : runJournal (ops ++ [op]) =
        (log_download (runJournal ops) op.meta op.info op.cfg op.filePath op.status op.writeOk).1 := by
      rw [runJournal, runJournal, List.foldl_append]
      rfl
    rw [hsplit]
    by_cases hw : op.writeOk
    · simp only [log_download, hw, if_pos]
      exact List.prefix_append _ _
    · simp only [log_download, hw]
      simp

/-- `List.find?` returns the element at the first index whose predicate
holds. -/
theorem find_first {α : Type} (p : α → Bool) : ∀ (l : List α) (i : Nat) (hi : i < l.length),
    p (l.get ⟨i, hi⟩) = true →
    (∀ j, (hj : j < i) → p (l.get ⟨j, Nat.lt_trans hj hi⟩) = false) →
    l.find? p = some (l.get ⟨i, hi⟩) := by
  intro l
  induction l with
  | nil => intro i hi; exact absurd hi (Nat.not_lt_zero i)
  | cons a l ih =>
    intro i hi hp hfirst
    cases i with
    | zero =>
      simp only [List.get] at hp
      rw [List.find?_cons_of_pos _ hp]
      rfl
    | succ i =>
      have ha : p a = false := hfirst 0 (Nat.succ_pos i)
      rw [List.find?_cons_of_neg _ (by simp [ha])]
      exact ih i (Nat.lt_of_succ_lt_succ hi) hp
        (fun j hj => hfirst (j + 1) (Nat.succ_lt_succ hj))

/-- C3: for a URL in which no hostname fragment of the table occurs
(case-insensitively), `get_video_source` returns the Other label; for a URL
matching the table entry at position `i` and no earlier entry, it returns
exactly that entry's label — the first match in the static table wins.  The
function is total (a Lean function) with no side effects. -/
theorem get_video_source_spec :
    (∀ url : List Char,
       (∀ pr ∈ source_mapping, ∀ d ∈ pr.1, containsSub (lowerList url) d.toList = false) →
       get_video_source url = VideoSource.OTHER) ∧
    (∀ (url : List Char) (i : Nat) (hi : i < source_mapping.length),
       ((source_mapping.get ⟨i, hi⟩).1.any fun d => containsSub (lowerList url) d.toList) = true →
       (∀ j, (hj : j < i) →
          ((source_mapping.get ⟨j, Nat.lt_trans hj hi⟩).1.any
             fun d => containsSub (lowerList url) d.toList) = false) →
       get_video_source url = (source_mapping.get ⟨i, hi⟩).2) := by
  constructor
  · intro url hnone
    unfold get_video_source
    have h : source_mapping.find?
        (fun pr => pr.1.any fun d => containsSub (lowerList url) d.toList) = none := by
      rw [List.find?_eq_none]
      intro pr hpr hcontra
      obtain ⟨d, hd, hc⟩ := List.any_eq_true.mp hcontra
      rw [hnone pr hpr d hd] at hc
      cases hc
    rw [h]
  · intro url i hi hp hfirst
    unfold get_video_source
    rw [find_first _ source_mapping i hi hp hfirst]

/-- C3 witness: a URL with no recognised fragment classifies as Other, and
a TikTok URL matches table entry 1 (no earlier entry matching). -/
theorem get_video_source_spec_witness :
    get_video_source "https://my.example/a".toList = VideoSource.OTHER ∧
    get_video_source "https://www.tiktok.com/@u/video/1".toList
      = (source_mapping.get ⟨1, by decide⟩).2 := by
  constructor
  · exact get_video_source_spec.1 _ (by decide)
  · exact get_video_source_spec.2 _ 1 (by decide) (by decide) (by decide)

/-- C1 counterexample: a playlist of N = 1 entries with K = 1 unresolvable
entries (the downloaded file is not located) appends no journal row at all
— not the K = 1 failure rows the property requires: `_download_playlist`
only writes journal rows for located files and merely logs other outcomes
to the diagnostic logger. -/
theorem playlist_failure_rows_counterexample :
    (download_playlist (some "PL") [some { title := some "V" }]
        [{ outcome := EntryOutcome.notFound }]
        { url := "https://youtube.com/playlist?list=L" } []).2 = [] ∧
    ¬ (((download_playlist (some "PL") [some { title := some "V" }]
        [{ outcome := EntryOutcome.notFound }]
        { url := "https://youtube.com/playlist?list=L" } []).2.countP
          fun row => !(rowStatus row == "Успешно")) = 1) := by
  exact ⟨by decide, by decide⟩

/-- The status column of a built row is the status argument. -/
theorem rowStatus_buildRow (meta : RowMeta) (info : InfoDict) (cfg : DConfig)
    (fp st : String) : rowStatus (buildRow meta info cfg fp st) = st :=
  rfl

/-- Core counting lemma for the playlist loop over non-`None` entries whose
journal writes succeed: the success counter equals the number of entries
whose file was located, exactly that many rows are appended, and every
appended row carries the success status. -/
theorem playlistGo_spec (cfg : DConfig) (plTitle : String) :
    ∀ (l : List (InfoDict × EntryEnv)) (i : Nat),
    (∀ pr ∈ l, pr.2.writeOk = true) →
    (playlistGo cfg plTitle (l.map (Prod.map some id)) i).1
        = l.countP (fun pr => isFound pr.2.outcome) ∧
    (playlistGo cfg plTitle (l.map (Prod.map some id)) i).2.length
        = l.countP (fun pr => isFound pr.2.outcome) ∧
    ((playlistGo cfg plTitle (l.map (Prod.map some id)) i).2.all
        fun row => rowStatus row == "Успешно") = true := by
  intro l
  induction l with
  | nil => intro i _; exact ⟨rfl, rfl, rfl⟩
  | cons pr l ih =>
    intro i hw
    obtain ⟨e, env⟩ := pr
    have hwpr : env.writeOk = true := hw (e, env) (List.mem_cons_self _ _)
    have ihl := ih (i + 1) (fun q hq => hw q (List.mem_cons_of_mem _ hq))
    cases hout : env.outcome with
    | found path =>
      simp only [List.map_cons, Prod.map, id, playlistGo, hout, hwpr, if_pos,
        List.countP_cons, List.cons_append, List.nil_append]
      refine ⟨?_, ?_, ?_⟩
      · rw [ihl.1]; simp [isFound]
      · simp only [List.length_cons]
        rw [ihl.2.1]; simp [isFound]
      · simp only [List.all_cons, Bool.and_eq_true]
        exact ⟨by simp [rowStatus_buildRow], ihl.2.2⟩
    | notFound =>
      simp only [List.map_cons, Prod.map, id, playlistGo, hout, List.countP_cons]
      refine ⟨?_, ?_, ihl.2.2⟩
      · rw [ihl.1]; simp [isFound]
      · rw [ihl.2.1]; simp [isFound]
    | raised msg =>
      simp only [List.map_cons, Prod.map, id, playlistGo, hout, List.countP_cons]
      refine ⟨?_, ?_, ihl.2.2⟩
      · rw [ihl.1]; simp [isFound]
      · rw [ihl.2.1]; simp [isFound]

/-- Counting a predicate and its negation partitions a list. -/
theorem countP_plus_countP_not {α : Type} (p : α → Bool) : ∀ l : List α,
    l.countP p + l.countP (fun a => !(p a)) = l.length := by
  intro l
  induction l with
  | nil => rfl
  | cons a l ih =>
    by_cases hp : p a = true <;> simp [List.countP_cons, hp] <;> omega

/-- Counting a property of the second components over a zip of equal-length
lists counts it over the second list. -/
theorem countP_zip_right {α β : Type} (q : β → Bool) :
    ∀ (as : List α) (bs : List β), as.length = bs.length →
    (as.zip bs).countP (fun pr => q pr.2) = bs.countP q := by
  intro as
  induction as with
  | nil =>
    intro bs h
    cases bs with
    | nil => rfl
    | cons b bs => simp at h
  | cons a as ih =>
    intro bs h
    cases bs with
    | nil => simp at h
    | cons b bs =>
      simp only [List.zip_cons_cons, List.countP_cons]
      rw [ih bs (by simpa using h)]

/-- C1 amended: for a playlist of N non-null entries (within the
max-downloads bound, with journal writes succeeding) of which K are
unresolvable (file not located, or an exception), `_download_playlist`
appends exactly N−K journal rows, all with the success status, and zero
rows with a failure status — failed entries produce no journal row at all —
and returns `True` iff K < N. -/
theorem playlist_rows_spec (es : List InfoDict) (envs : List EntryEnv)
    (cfg : DConfig) (title : Option String) (j : List (List String))
    (hlen : envs.length = es.length)
    (hmax : es.length ≤ cfg.maxDownloads)
    (hw : (envs.all fun env => env.writeOk) = true) :
    (download_playlist title (es.map some) envs cfg j).2.length
        = j.length + (es.length - envs.countP fun env => !(isFound env.outcome)) ∧
    (((download_playlist title (es.map some) envs cfg j).2.drop j.length).all
        fun row => rowStatus row == "Успешно") = true ∧
    (((download_playlist title (es.map some) envs cfg j).2.drop j.length).countP
        fun row => !(rowStatus row == "Успешно")) = 0 ∧
    ((download_playlist title (es.map some) envs cfg j).1 = true
        ↔ (envs.countP fun env => !(isFound env.outcome)) < es.length) := by
  have hFK := countP_plus_countP_not (fun env => isFound env.outcome) envs
  cases es with
  | nil =>
    have henvs : envs = [] := List.eq_nil_of_length_eq_zero hlen
    subst henvs
    simp [download_playlist, List.drop_length]
  | cons e0 es' =>
    have hne : ((e0 :: es').map some).isEmpty = false := rfl
    have hzip : ((e0 :: es').map some).zip envs
        = ((e0 :: es').zip envs).map (Prod.map some id) := by
      rw [List.zip_map_left]
    have hzlen : (((e0 :: es').zip envs).map (Prod.map some id)).length
        = (e0 :: es').length := by
      rw [List.length_map, List.length_zip, hlen, Nat.min_self]
    have htake : ((((e0 :: es').zip envs).map (Prod.map some id)).take cfg.maxDownloads)
        = ((e0 :: es').zip envs).map (Prod.map some id) := by
      apply List.take_of_length_le
      rw [hzlen]; exact hmax
    have hwz : ∀ pr ∈ (e0 :: es').zip envs, pr.2.writeOk = true := by
      intro pr hpr
      exact (List.all_eq_true.mp hw) pr.2 (List.of_mem_zip hpr).2
    have hgo := playlistGo_spec cfg ((title).getD "Unknown_Playlist")
      ((e0 :: es').zip envs) 1 hwz
    have hF : ((e0 :: es').zip envs).countP (fun pr => isFound pr.2.outcome)
        = envs.countP (fun env => isFound env.outcome) :=
      countP_zip_right (fun env => isFound env.outcome) (e0 :: es') envs hlen.symm
    rw [hF] at hgo
    simp only [download_playlist, hne, Bool.false_eq_true, if_false, hzip, htake]
    refine ⟨?_, ?_, ?_, ?_⟩
    · rw [List.length_append, hgo.2.1]
      omega
    · rw [List.drop_left]
      exact hgo.2.2
    · rw [List.drop_left, List.countP_eq_zero]
      intro row hrow
      have hst := (List.all_eq_true.mp hgo.2.2) row hrow
      simp [hst]
    · rw [hgo.1, decide_eq_true_iff]
      omega

/-- C1 witness: a two-entry playlist with one located file and one missing
file appends exactly one success row and reports overall success. -/
theorem playlist_rows_spec_witness :
    (download_playlist (some "PL")
        ([({ title := some "A" } : InfoDict), { title := some "B" }].map some)
        [({ outcome := EntryOutcome.found "A.mp4" } : EntryEnv),
         { outcome := EntryOutcome.notFound }]
        { url := "https://youtube.com/playlist?list=L" } []).2.length
      = ([] : List (List String)).length
        + ([({ title := some "A" } : InfoDict), { title := some "B" }].length
           - ([({ outcome := EntryOutcome.found "A.mp4" } : EntryEnv),
               { outcome := EntryOutcome.notFound }].countP
                fun env => !(isFound env.outcome))) ∧
    ((download_playlist (some "PL")
        ([({ title := some "A" } : InfoDict), { title := some "B" }].map some)
        [({ outcome := EntryOutcome.found "A.mp4" } : EntryEnv),
         { outcome := EntryOutcome.notFound }]
        { url := "https://youtube.com/playlist?list=L" } []).1 = true
      ↔ ([({ outcome := EntryOutcome.found "A.mp4" } : EntryEnv),
            { outcome := EntryOutcome.notFound }].countP
             fun env => !(isFound env.outcome))
          < [({ title := some "A" } : InfoDict), { title := some "B" }].length) := by
  have h := playlist_rows_spec
    [({ title := some "A" } : InfoDict), { title := some "B" }]
    [({ outcome := EntryOutcome.found "A.mp4" } : EntryEnv),
     { outcome := EntryOutcome.notFound }]
    { url := "https://youtube.com/playlist?list=L" } (some "PL") []
    rfl (by decide) (by decide)
  exact ⟨h.1, h.2.2.2⟩

/-- Characters of the whitespace-collapsed list come from the input or are
the replacement space. -/
theorem mem_collapseWsGo (c : Char) : ∀ (l : List Char) (b : Bool),
    c ∈ collapseWsGo b l → c = ' ' ∨ c ∈ l := by
  intro l
  induction l with
  | nil => intro b h; cases h
  | cons d l ih =>
    intro b h
    by_cases hd : isSpaceChar d = true
    · cases b with
      | true =>
        simp only [collapseWsGo, hd, if_pos] at h
        rcases ih true h with h1 | h1
        · exact Or.inl h1
        · exact Or.inr (List.mem_cons_of_mem d h1)
      | false =>
        simp only [collapseWsGo, hd, if_pos] at h
        rcases List.mem_cons.mp h with h1 | h1
        · exact Or.inl h1
        · rcases ih true h1 with h2 | h2
          · exact Or.inl h2
          · exact Or.inr (List.mem_cons_of_mem d h2)
    · simp only [collapseWsGo, hd, Bool.false_eq_true, if_false] at h
      rcases List.mem_cons.mp h with h1 | h1
      · exact Or.inr (h1 ▸ List.mem_cons_self d l)
      · rcases ih false h1 with h2 | h2
        · exact Or.inl h2
        · exact Or.inr (List.mem_cons_of_mem d h2)

/-- Stripping is character-conservative. -/
theorem mem_pyStrip (c : Char) (l : List Char) (h : c ∈ pyStrip l) : c ∈ l := by
  unfold pyStrip at h
  rw [List.mem_reverse] at h
  have h1 := (List.dropWhile_sublist _).subset h
  rw [List.mem_reverse] at h1
  exact (List.dropWhile_sublist _).subset h1

/-- Removing trailing dots is character-conservative. -/
theorem mem_rstripDot (c : Char) (l : List Char) (h : c ∈ rstripDot l) : c ∈ l := by
  unfold rstripDot at h
  rw [List.mem_reverse] at h
  have h1 := (List.dropWhile_sublist _).subset h
  rw [List.mem_reverse] at h1
  exact h1

/-- Characters of split words come from the accumulator or the input. -/
theorem splitWsGo_mem_chars : ∀ (l cur w : List Char),
    w ∈ splitWsGo cur l → ∀ c ∈ w, c ∈ cur ∨ c ∈ l := by
  intro l
  induction l with
  | nil =>
    intro cur w hw c hc
    by_cases hcur : cur.isEmpty = true
    · simp [splitWsGo, hcur] at hw
    · simp only [splitWsGo, hcur, Bool.false_eq_true, if_false] at hw
      rcases List.mem_singleton.mp hw with h1
      subst h1
      exact Or.inl (List.mem_reverse.mp hc)
  | cons d l ih =>
    intro cur w hw c hc
    by_cases hd : isSpaceChar d = true
    · by_cases hcur : cur.isEmpty = true
      · simp only [splitWsGo, hd, hcur, if_pos] at hw
        rcases ih [] w hw c hc with h1 | h1
        · cases h1
        · exact Or.inr (List.mem_cons_of_mem d h1)
      · simp only [splitWsGo, hd, hcur, Bool.false_eq_true, if_false, if_pos] at hw
        rcases List.mem_cons.mp hw with h1 | h1
        · subst h1
          exact Or.inl (List.mem_reverse.mp hc)
        · rcases ih [] w h1 c hc with h2 | h2
          · cases h2
          · exact Or.inr (List.mem_cons_of_mem d h2)
    · simp only [splitWsGo, hd, Bool.false_eq_true, if_false] at hw
      rcases ih (d :: cur) w hw c hc with h1 | h1
      · rcases List.mem_cons.mp h1 with h2 | h2
        · exact Or.inr (h2 ▸ List.mem_cons_self d l)
        · exact Or.inl h2
      · exact Or.inr (List.mem_cons_of_mem d h1)

/-- Words produced by splitting contain no whitespace character. -/
theorem splitWsGo_no_space : ∀ (l cur : List Char),
    (cur.all fun c => !(isSpaceChar c)) = true →
    ∀ w ∈ splitWsGo cur l, (w.all fun c => !(isSpaceChar c)) = true := by
  intro l
  induction l with
  | nil =>
    intro cur hcur w hw
    by_cases hce : cur.isEmpty = true
    · simp [splitWsGo, hce] at hw
    · simp only [splitWsGo, hce, Bool.false_eq_true, if_false] at hw
      rcases List.mem_singleton.mp hw with h1
      subst h1
      simpa using hcur
  | cons d l ih =>
    intro cur hcur w hw
    by_cases hd : isSpaceChar d = true
    · by_cases hce : cur.isEmpty = true
      · simp only [splitWsGo, hd, hce, if_pos] at hw
        exact ih [] rfl w hw
      · simp only [splitWsGo, hd, hce, Bool.false_eq_true, if_false, if_pos] at hw
        rcases List.mem_cons.mp hw with h1 | h1
        · subst h1; simpa using hcur
        · exact ih [] rfl w h1
    · simp only [splitWsGo, hd, Bool.false_eq_true, if_false] at hw
      refine ih (d :: cur) ?_ w hw
      simp only [List.all_cons, Bool.and_eq_true]
      exact ⟨by simp [hd], hcur⟩

/-- The accumulation loop either never extends its seed or ends within the
length bound. -/
theorem truncGo_cases (m : Nat) : ∀ (ws : List (List Char)) (acc : List Char),
    truncGo m acc ws = acc ∨ (truncGo m acc ws).length ≤ m := by
  intro ws
  induction ws with
  | nil => intro acc; exact Or.inl rfl
  | cons w ws ih =>
    intro acc
    by_cases hfit : (acc ++ ' ' :: w).length ≤ m
    · simp only [truncGo, hfit, if_pos]
      rcases ih (acc ++ ' ' :: w) with h | h
      · right; rw [h]; exact hfit
      · right; exact h
    · simp only [truncGo, hfit, if_false]
      exact Or.inl trivial

/-- Characters of the accumulation loop's result come from the seed, the
word list, or the separating space. -/
theorem mem_truncGo (m : Nat) : ∀ (ws : List (List Char)) (acc : List Char) (c : Char),
    c ∈ truncGo m acc ws → c ∈ acc ∨ c = ' ' ∨ ∃ w ∈ ws, c ∈ w := by
  intro ws
  induction ws with
  | nil => intro acc c h; exact Or.inl h
  | cons w ws ih =>
    intro acc c h
    by_cases hfit : (acc ++ ' ' :: w).length ≤ m
    · simp only [truncGo, hfit, if_pos] at h
      rcases ih (acc ++ ' ' :: w) c h with h1 | h1 | h1
      · rcases List.mem_append.mp h1 with h2 | h2
        · exact Or.inl h2
        · rcases List.mem_cons.mp h2 with h3 | h3
          · exact Or.inr (Or.inl h3)
          · exact Or.inr (Or.inr ⟨w, List.mem_cons_self w ws, h3⟩)
      · exact Or.inr (Or.inl h1)
      · obtain ⟨w2, hw2, hcw2⟩ := h1
        exact Or.inr (Or.inr ⟨w2, List.mem_cons_of_mem w hw2, hcw2⟩)
    · simp only [truncGo, hfit, if_false] at h
      exact Or.inl h

/-- A pointwise property transfers along list inclusion. -/
theorem all_of_subset {p : Char → Bool} {l1 l2 : List Char}
    (hsub : ∀ c ∈ l1, c ∈ l2) (h : (l2.all p) = true) : (l1.all p) = true := by
  rw [List.all_eq_true] at *
  exact fun c hc => h c (hsub c hc)

/-- Whitespace collapsing preserves freedom from forbidden characters. -/
theorem collapseWs_not_forbidden (l : List Char)
    (h : (l.all fun c => !(isForbiddenChar c)) = true) :
    ((collapseWs l).all fun c => !(isForbiddenChar c)) = true := by
  rw [List.all_eq_true] at *
  intro c hc
  rcases mem_collapseWsGo c l false hc with h1 | h1
  · subst h1; decide
  · exact h c h1

/-- Word-boundary truncation preserves freedom from forbidden characters. -/
theorem truncateWords_not_forbidden (l : List Char) (m : Nat)
    (h : (l.all fun c => !(isForbiddenChar c)) = true) :
    ((truncateWords l m).all fun c => !(isForbiddenChar c)) = true := by
  unfold truncateWords
  cases hsp : splitWs l with
  | nil => exact (by decide : (("Video".toList).all fun c => !(isForbiddenChar c)) = true)
  | cons w ws =>
    show ((truncGo m w ws).all fun c => !(isForbiddenChar c)) = true
    rw [List.all_eq_true]
    intro c hc
    rcases mem_truncGo m ws w c hc with h1 | h1 | h1
    · have hw : w ∈ splitWsGo [] l := by
        rw [show splitWsGo [] l = splitWs l from rfl, hsp]
        exact List.mem_cons_self w ws
      rcases splitWsGo_mem_chars l [] w hw c h1 with h2 | h2
      · cases h2
      · exact List.all_eq_true.mp h c h2
    · subst h1; decide
    · obtain ⟨w2, hw2, hc2⟩ := h1
      have hw : w2 ∈ splitWsGo [] l := by
        rw [show splitWsGo [] l = splitWs l from rfl, hsp]
        exact List.mem_cons_of_mem w hw2
      rcases splitWsGo_mem_chars l [] w2 hw c hc2 with h2 | h2
      · cases h2
      · exact List.all_eq_true.mp h c h2

/-- Word-boundary truncation stays within the bound unless it returns a
single whitespace-free word. -/
theorem truncateWords_length_or_word (l : List Char) (m : Nat) :
    (truncateWords l m).length ≤ m ∨
    ((truncateWords l m).all fun c => !(c == ' ')) = true := by
  unfold truncateWords
  cases hsp : splitWs l with
  | nil => exact Or.inr (by decide : (("Video".toList).all fun c => !(c == ' ')) = true)
  | cons w ws =>
    show (truncGo m w ws).length ≤ m ∨ ((truncGo m w ws).all fun c => !(c == ' ')) = true
    rcases truncGo_cases m ws w with h | h
    · right
      rw [h, List.all_eq_true]
      intro c hc
      have hw : w ∈ splitWsGo [] l := by
        rw [show splitWsGo [] l = splitWs l from rfl, hsp]
        exact List.mem_cons_self w ws
      have h2 := splitWsGo_no_space l [] rfl w hw
      have h3 := List.all_eq_true.mp h2 c hc
      cases hceq : (c == ' ') with
      | true =>
        exfalso
        have hc' : c = ' ' := eq_of_beq hceq
        subst hc'
        rw [show isSpaceChar ' ' = true from rfl] at h3
        cases h3
      | false => rfl
    · exact Or.inl h

/-- C2 counterexample: for maximum length 10 and the single 16-character
word `abcdefghijklmnop` the sanitizer's output has length 16 — the
word-boundary truncation keeps `words[0]` whole, so a single word longer
than the limit survives uncut and the length bound fails. -/
theorem sanitize_length_counterexample :
    ¬ ((sanitize_filename "abcdefghijklmnop".toList 10).length ≤ 10) := by
  decide

/-- C2 amended: for every input and maximum length, the sanitizer's output
contains none of the characters `<>:"/\|?*` and is never empty; its length
is at most the maximum except when the output is a single whitespace-free
word (the first word of the cleaned title, or a fixed placeholder), which
is kept whole even when longer than the maximum. -/
theorem sanitize_filename_spec (s : List Char) (maxLength : Nat) :
    ((sanitize_filename s maxLength).all fun c => !(isForbiddenChar c)) = true ∧
    sanitize_filename s maxLength ≠ [] ∧
    ((sanitize_filename s maxLength).length ≤ maxLength ∨
      ((sanitize_filename s maxLength).all fun c => !(c == ' ')) = true) := by
  have hU1 : (("Unknown_Video".toList).all fun c => !(isForbiddenChar c)) = true := by decide
  have hU2 : ("Unknown_Video".toList : List Char) ≠ [] := by decide
  have hU3 : (("Unknown_Video".toList).all fun c => !(c == ' ')) = true := by decide
  simp only [sanitize_filename]
  by_cases hg : (s.isEmpty || (pyStrip s).isEmpty) = true
  · rw [if_pos hg]
    exact ⟨hU1, hU2, Or.inr hU3⟩
  · rw [if_neg hg]
    set t := (stripTags s).filter (fun c => !(isForbiddenChar c)) with ht
    set g := rstripDot (pyStrip (collapseWs (t.filter isAllowedCls))) with hgdef
    have hforb_t : (t.all fun c => !(isForbiddenChar c)) = true := by
      rw [ht, List.all_eq_true]
      intro c hc
      exact (List.mem_filter.mp hc).2
    have hforb_g : (g.all fun c => !(isForbiddenChar c)) = true := by
      rw [hgdef]
      apply all_of_subset (fun c hc => mem_rstripDot c _ hc)
      apply all_of_subset (fun c hc => mem_pyStrip c _ hc)
      apply collapseWs_not_forbidden
      exact all_of_subset (fun c hc => (List.mem_filter.mp hc).1) hforb_t
    by_cases hlen : maxLength < g.length
    · rw [if_pos hlen]
      by_cases hemp : (truncateWords g maxLength).isEmpty = true
      · rw [if_pos hemp]
        exact ⟨hU1, hU2, Or.inr hU3⟩
      · rw [if_neg hemp]
        refine ⟨truncateWords_not_forbidden g maxLength hforb_g, ?_, ?_⟩
        · intro hnil
          rw [hnil] at hemp
          exact hemp rfl
        · exact truncateWords_length_or_word g maxLength
    · rw [if_neg hlen]
      by_cases hemp : g.isEmpty = true
      · rw [if_pos hemp]
        exact ⟨hU1, hU2, Or.inr hU3⟩
      · rw [if_neg hemp]
        refine ⟨hforb_g, ?_, Or.inl (Nat.le_of_not_lt hlen)⟩
        intro hnil
        rw [hnil] at hemp
        exact hemp rfl

/-- A captured video id: a run of 15 or 16 digit characters. -/
def IsVideoId (g : List Char) : Prop :=
  (g.all Char.isDigit) = true ∧ (g.length = 15 ∨ g.length = 16)

/-- A prefix match survives extending the scanned list on the right. -/
theorem startsWithL_extend : ∀ (pat s t : List Char),
    startsWithL pat s = true → startsWithL pat (s ++ t) = true := by
  intro pat
  induction pat with
  | nil => intro s t _; rfl
  | cons p ps ih =>
    intro s t h
    cases s with
    | nil => cases h
    | cons c cs =>
      simp only [startsWithL, Bool.and_eq_true] at h
      simp only [List.cons_append, startsWithL, Bool.and_eq_true]
      exact ⟨h.1, ih cs t h.2⟩

/-- A prefix match on an appended list matches the overlap on the left
part. -/
theorem startsWithL_append_overlap : ∀ (lit a b : List Char),
    startsWithL lit (a ++ b) = true → startsWithL (lit.take a.length) a = true := by
  intro lit
  induction lit with
  | nil => intro a b _; rw [List.take_nil]; cases a <;> rfl
  | cons p ps ih =>
    intro a b h
    cases a with
    | nil => rfl
    | cons x xs =>
      simp only [List.cons_append, startsWithL, Bool.and_eq_true] at h
      simp only [List.length_cons, List.take_succ_cons, startsWithL, Bool.and_eq_true]
      exact ⟨h.1, ih xs b h.2⟩

/-- Every list is a prefix of itself extended. -/
theorem startsWithL_append_self : ∀ (x y : List Char), startsWithL x (x ++ y) = true := by
  intro x y
  induction x with
  | nil => rfl
  | cons c cs ih =>
    simp only [List.cons_append, startsWithL, Bool.and_eq_true]
    exact ⟨by simp, ih⟩

/-- The empty pattern is contained in every list. -/
theorem containsSub_nil_pat : ∀ l : List Char, containsSub l [] = true := by
  intro l
  cases l with
  | nil => rfl
  | cons c cs => simp only [containsSub, startsWithL, Bool.true_or]

/-- Substring containment survives extending the haystack on the right. -/
theorem containsSub_append_left : ∀ (a b pat : List Char),
    containsSub a pat = true → containsSub (a ++ b) pat = true := by
  intro a
  induction a with
  | nil =>
    intro b pat h
    have hp : pat = [] := by
      cases pat with
      | nil => rfl
      | cons p ps => cases h
    subst hp
    exact containsSub_nil_pat b
  | cons x xs ih =>
    intro b pat h
    simp only [containsSub, Bool.or_eq_true] at h
    simp only [List.cons_append, containsSub, Bool.or_eq_true]
    rcases h with h | h
    · exact Or.inl (by simpa [List.cons_append] using startsWithL_extend pat (x :: xs) b h)
    · exact Or.inr (ih b pat h)

/-- `digitGroup` only returns runs of 15 or 16 digits. -/
theorem digitGroup_digits (s g : List Char) (h : digitGroup s = some g) : IsVideoId g := by
  unfold digitGroup at h
  by_cases hlen : 15 ≤ (s.takeWhile Char.isDigit).length
  · rw [if_pos hlen] at h
    have hg : g = (s.takeWhile Char.isDigit).take 16 := by
      cases h; rfl
    subst hg
    constructor
    · rw [List.all_eq_true]
      intro c hc
      exact List.mem_takeWhile_imp (List.take_subset _ _ hc)
    · rw [List.length_take]
      omega
  · rw [if_neg hlen] at h
    cases h

/-- On a full 15- or 16-digit run, `digitGroup` returns the run itself. -/
theorem digitGroup_self (g : List Char) (hg : IsVideoId g) : digitGroup g = some g := by
  obtain ⟨hall, hlen⟩ := hg
  have htw : ∀ l : List Char, (l.all Char.isDigit) = true → l.takeWhile Char.isDigit = l := by
    intro l
    induction l with
    | nil => intro _; rfl
    | cons c r ih =>
      intro h
      simp only [List.all_cons, Bool.and_eq_true] at h
      rw [List.takeWhile_cons_of_pos h.1, ih h.2]
  unfold digitGroup
  rw [htw g hall]
  rw [if_pos (by omega)]
  rw [List.take_of_length_le (by omega)]

/-- Literal-plus-digits matchers only return video ids. -/
theorem matchLitDigits_digits (lit t g : List Char)
    (h : matchLitDigits lit t = some g) : IsVideoId g := by
  unfold matchLitDigits at h
  by_cases hs : startsWithL lit t = true
  · rw [if_pos hs] at h
    exact digitGroup_digits _ _ h
  · rw [if_neg hs] at h
    cases h

/-- The lazy-dot-then-digits matcher only returns video ids. -/
theorem dotLazyDigits_digits : ∀ (s g : List Char),
    dotLazyDigits s = some g → IsVideoId g := by
  intro s
  induction s with
  | nil =>
    intro g h
    cases h
  | cons c rest ih =>
    intro g h
    unfold dotLazyDigits at h
    cases hdg : digitGroup (c :: rest) with
    | some g2 =>
      rw [hdg] at h
      cases h
      exact digitGroup_digits _ _ hdg
    | none =>
      rw [hdg] at h
      by_cases hc : (c == '\n') = true
      · rw [if_pos hc] at h; cases h
      · rw [if_neg hc] at h; exact ih g h

/-- The greedy non-slash backtracking matcher only returns video ids. -/
theorem nonSlashGreedy_digits (rest : List Char) : ∀ (k : Nat) (g : List Char),
    nonSlashGreedy rest k = some g → IsVideoId g := by
  intro k
  induction k with
  | zero => intro g h; cases h
  | succ k ih =>
    intro g h
    unfold nonSlashGreedy at h
    cases hdl : dotLazyDigits (rest.drop (k + 1)) with
    | some g2 => rw [hdl] at h; cases h; exact dotLazyDigits_digits _ _ hdl
    | none => rw [hdl] at h; exact ih g h

/-- The fb.watch matcher only returns video ids. -/
theorem matchFbWatchAt_digits (t g : List Char)
    (h : matchFbWatchAt t = some g) : IsVideoId g := by
  unfold matchFbWatchAt at h
  by_cases hs : startsWithL "fb.watch/".toList t = true
  · rw [if_pos hs] at h
    by_cases hr : ((t.drop 9).takeWhile fun c => !(c == '/')).isEmpty = true
    · rw [if_pos hr] at h; cases h
    · rw [if_neg hr] at h
      exact nonSlashGreedy_digits _ _ _ h
  · rw [if_neg hs] at h
    cases h

/-- The video_id matcher only returns video ids. -/
theorem matchVideoIdAt_digits (t g : List Char)
    (h : matchVideoIdAt t = some g) : IsVideoId g := by
  unfold matchVideoIdAt at h
  split at h
  · split at h
    · cases h
    · split at h
      · exact digitGroup_digits _ _ h
      · cases h
  · cases h

/-- The word-boundary number matcher only returns video ids. -/
theorem matchNumAt_digits (prev : Option Char) (t g : List Char)
    (h : matchNumAt prev t = some g) : IsVideoId g := by
  simp only [matchNumAt] at h
  split at h
  · split at h
    · rename_i hcond
      cases h
      have h16 : 16 ≤ (t.takeWhile Char.isDigit).length :=
        of_decide_eq_true (Bool.and_eq_true _ _ |>.mp hcond).1
      refine ⟨?_, ?_⟩
      · rw [List.all_eq_true]
        intro c hc
        exact List.mem_takeWhile_imp (List.take_subset _ _ hc)
      · rw [List.length_take]; omega
    · split at h
      · rename_i hcond
        cases h
        have h15 : (t.takeWhile Char.isDigit).length = 15 := by
          simpa using (Bool.and_eq_true _ _ |>.mp hcond).1
        refine ⟨?_, ?_⟩
        · rw [List.all_eq_true]
          intro c hc
          exact List.mem_takeWhile_imp (List.take_subset _ _ hc)
        · rw [List.length_take]; omega
      · cases h
  · cases h

/-- The word-boundary scan only returns video ids. -/
theorem findNumFrom_digits : ∀ (s : List Char) (prev : Option Char) (g : List Char),
    findNumFrom prev s = some g → IsVideoId g := by
  intro s
  induction s with
  | nil => intro prev g h; cases h
  | cons c rest ih =>
    intro prev g h
    unfold findNumFrom at h
    cases hm : matchNumAt prev (c :: rest) with
    | some g2 => rw [hm] at h; cases h; exact matchNumAt_digits _ _ _ hm
    | none => rw [hm] at h; exact ih (some c) g h

/-- A leftmost scan only returns what its position matcher can return. -/
theorem findFrom_digits (m : List Char → Option (List Char))
    (hm : ∀ t g, m t = some g → IsVideoId g) :
    ∀ (s g : List Char), findFrom m s = some g → IsVideoId g := by
  intro s
  induction s with
  | nil => intro g h; exact hm [] g h
  | cons c rest ih =>
    intro g h
    unfold findFrom at h
    cases hmc : m (c :: rest) with
    | some g2 => rw [hmc] at h; cases h; exact hm _ _ hmc
    | none => rw [hmc] at h; exact ih g h

/-- Whatever pattern of `_fix_facebook_url` matches, the captured group is
a run of 15 or 16 digits. -/
theorem fbPatternSearch_digits (url g : List Char)
    (h : fbPatternSearch url = some g) : IsVideoId g := by
  unfold fbPatternSearch at h
  cases h1 : findFrom (matchLitDigits "/reel/".toList) url with
  | some g1 =>
    rw [h1] at h; cases h
    exact findFrom_digits _ (fun t gx => matchLitDigits_digits _ t gx) url g h1
  | none =>
  rw [h1] at h
  cases h2 : findFrom (matchLitDigits "/watch/?v=".toList) url with
  | some g2 =>
    rw [h2] at h; cases h
    exact findFrom_digits _ (fun t gx => matchLitDigits_digits _ t gx) url g h2
  | none =>
  rw [h2] at h
  cases h3 : findFrom (matchLitDigits "/videos/".toList) url with
  | some g3 =>
    rw [h3] at h; cases h
    exact findFrom_digits _ (fun t gx => matchLitDigits_digits _ t gx) url g h3
  | none =>
  rw [h3] at h
  cases h4 : findFrom matchFbWatchAt url with
  | some g4 =>
    rw [h4] at h; cases h
    exact findFrom_digits _ matchFbWatchAt_digits url g h4
  | none =>
  rw [h4] at h
  cases h5 : findFrom matchVideoIdAt url with
  | some g5 =>
    rw [h5] at h; cases h
    exact findFrom_digits _ matchVideoIdAt_digits url g h5
  | none =>
  rw [h5] at h
  exact findNumFrom_digits url none g h

/-- A matcher that fails at every position inside a left part (however far
it looks into the right part) makes the leftmost scan skip that part. -/
theorem findFrom_append (m : List Char → Option (List Char)) : ∀ (a b : List Char),
    (∀ a', a' <:+ a → a' ≠ [] → m (a' ++ b) = none) →
    findFrom m (a ++ b) = findFrom m b := by
  intro a
  induction a with
  | nil => intro b _; rfl
  | cons x xs ih =>
    intro b ha
    have h0 := ha (x :: xs) List.suffix_rfl (by simp)
    rw [List.cons_append] at h0
    rw [List.cons_append]
    simp only [findFrom, h0]
    exact ih b (fun a' hs hne => ha a' (hs.trans (List.suffix_cons x xs)) hne)

/-- A matcher that fires at the start of a nonempty list decides the scan. -/
theorem findFrom_head_some (m : List Char → Option (List Char)) (s g : List Char)
    (hne : s ≠ []) (h : m s = some g) : findFrom m s = some g := by
  cases s with
  | nil => exact absurd rfl hne
  | cons c rest => simp only [findFrom, h]

/-- A failed prefix comparison makes a literal matcher fail. -/
theorem matchLitDigits_none_of (lit s : List Char) (h : startsWithL lit s = false) :
    matchLitDigits lit s = none := by
  simp [matchLitDigits, h]

/-- On a pure digit run no position matches `/reel/(\d{15,16})`. -/
theorem findFrom_reel_digits : ∀ (g : List Char), (g.all Char.isDigit) = true →
    findFrom (matchLitDigits "/reel/".toList) g = none := by
  intro g
  induction g with
  | nil => intro _; rfl
  | cons c rest ih =>
    intro hg
    simp only [List.all_cons, Bool.and_eq_true] at hg
    have hne : ('/' == c) = false := by
      cases hbe : ('/' == c) with
      | true =>
        exfalso
        have hcd := hg.1
        rw [← eq_of_beq hbe] at hcd
        cases hcd
      | false => rfl
    have hsw : startsWithL "/reel/".toList (c :: rest) = false := by
      show ('/' == c && startsWithL "reel/".toList rest) = false
      rw [hne, Bool.false_and]
    simp only [findFrom, matchLitDigits_none_of _ _ hsw]
    exact ih hg.2

/-- C6: `_fix_facebook_url` is idempotent — a non-Facebook URL or a URL
with no matching pattern is returned unchanged, and the canonical
`watch/?v=<id>` URL produced by a first application is mapped to itself by
a second one (its id is recaptured by the `/watch/\?v=` pattern). -/
theorem fix_facebook_url_idempotent (url : List Char) :
    fix_facebook_url (fix_facebook_url url) = fix_facebook_url url := by
  by_cases hfb : (!(containsSub (lowerList url) "facebook.com".toList) &&
                  !(containsSub (lowerList url) "fb.watch".toList)) = true
  · have h1 : fix_facebook_url url = url := by
      unfold fix_facebook_url
      rw [if_pos hfb]
    rw [h1]
    exact h1
  · cases hsearch : fbPatternSearch url with
    | none =>
      have h1 : fix_facebook_url url = url := by
        unfold fix_facebook_url
        rw [if_neg hfb, hsearch]
      rw [h1]
      exact h1
    | some g =>
      have h1 : fix_facebook_url url = fbCanon ++ g := by
        unfold fix_facebook_url
        rw [if_neg hfb, hsearch]
      rw [h1]
      obtain ⟨hdig, hlen⟩ := fbPatternSearch_digits url g hsearch
      have hlow : lowerList (fbCanon ++ g) = fbCanon ++ lowerList g := by
        unfold lowerList
        rw [List.map_append, show List.map Char.toLower fbCanon = fbCanon from by decide]
      have hcontains : containsSub (lowerList (fbCanon ++ g)) ("facebook.com".toList) = true := by
        rw [hlow]
        exact containsSub_append_left fbCanon (lowerList g) _ (by decide)
      have ha1 : ∀ a', a' <:+ fbCanon → a' ≠ [] →
          matchLitDigits "/reel/".toList (a' ++ g) = none := by
        intro a' hsuf hne
        have hmem : a' ∈ fbCanon.tails := (List.mem_tails a' fbCanon).mpr hsuf
        have hfact : ∀ x ∈ fbCanon.tails,
            x = [] ∨ startsWithL ("/reel/".toList.take x.length) x = false := by decide
        rcases hfact a' hmem with hx | hx
        · exact absurd hx hne
        · apply matchLitDigits_none_of
          cases hsw : startsWithL "/reel/".toList (a' ++ g) with
          | false => rfl
          | true =>
            exfalso
            have hov := startsWithL_append_overlap _ a' g hsw
            rw [hx] at hov
            cases hov
      have hp1 : findFrom (matchLitDigits "/reel/".toList) (fbCanon ++ g) = none := by
        rw [findFrom_append _ fbCanon g ha1]
        exact findFrom_reel_digits g hdig
      have hcanon : fbCanon = "https://www.facebook.com".toList ++ "/watch/?v=".toList := by
        decide
      have ha2 : ∀ a', a' <:+ "https://www.facebook.com".toList → a' ≠ [] →
          matchLitDigits "/watch/?v=".toList (a' ++ ("/watch/?v=".toList ++ g)) = none := by
        intro a' hsuf hne
        have hmem : a' ∈ ("https://www.facebook.com".toList).tails :=
          (List.mem_tails a' _).mpr hsuf
        have hfact : ∀ x ∈ ("https://www.facebook.com".toList).tails,
            x = [] ∨ startsWithL ("/watch/?v=".toList.take x.length) x = false := by decide
        rcases hfact a' hmem with hx | hx
        · exact absurd hx hne
        · apply matchLitDigits_none_of
          cases hsw : startsWithL "/watch/?v=".toList (a' ++ ("/watch/?v=".toList ++ g)) with
          | false => rfl
          | true =>
            exfalso
            have hov := startsWithL_append_overlap _ a' _ hsw
            rw [hx] at hov
            cases hov
      have hfire : matchLitDigits "/watch/?v=".toList ("/watch/?v=".toList ++ g) = some g := by
        unfold matchLitDigits
        rw [if_pos (startsWithL_append_self _ g)]
        rw [List.drop_left]
        exact digitGroup_self g ⟨hdig, hlen⟩
      have hp2 : findFrom (matchLitDigits "/watch/?v=".toList) (fbCanon ++ g) = some g := by
        rw [hcanon, List.append_assoc, findFrom_append _ _ _ ha2]
        exact findFrom_head_some _ _ g
          (List.append_ne_nil_of_left_ne_nil (by decide : "/watch/?v=".toList ≠ []) g) hfire
      have hsearch2 : fbPatternSearch (fbCanon ++ g) = some g := by
        unfold fbPatternSearch
        rw [hp1, hp2]
      unfold fix_facebook_url
      rw [hcontains]
      simp only [Bool.not_true, Bool.false_and, Bool.false_eq_true, if_false, hsearch2]
